import Mathlib

/-! Verification of the ironcoin transaction authorization engine (src/tx.rs):
the commitment data model, the `TransactionBuilder`, and `verify_signatures`,
embedded shallowly, with the external crypto primitive and the generated
protobuf code modelled from the specification. -/

set_option autoImplicit false
set_option maxRecDepth 100000

/-- Modelled from the spec: `IroncError` (error module is not under src/), the
typed error carrying a human-readable message, as built by `IroncError::new`. -/
structure IroncError where
  message : String
deriving DecidableEq, Repr

/-- The `IroncResult` alias used throughout src/tx.rs. -/
abbrev IroncResult (α : Type) := Except IroncError α

instance {ε α : Type} [DecidableEq ε] [DecidableEq α] : DecidableEq (Except ε α) := fun x y =>
  match x, y with
  | .error a, .error b =>
      if h : a = b then .isTrue (by rw [h]) else .isFalse (by intro hc; cases hc; exact h rfl)
  | .error _, .ok _ => .isFalse (by intro hc; cases hc)
  | .ok _, .error _ => .isFalse (by intro hc; cases hc)
  | .ok a, .ok b =>
      if h : a = b then .isTrue (by rw [h]) else .isFalse (by intro hc; cases hc; exact h rfl)

/-- Modelled from the spec: an ed25519-style public key (crypto module is not
under src/), a 32-byte value; `pk.0` in the source is the raw byte array. -/
structure PublicKey where
  bytes : List Nat
  len32 : bytes.length = 32

/-- Modelled from the spec: a secret key of the external signature scheme.  In
the ed25519 scheme used by the source, the trailing 32 bytes of the 64-byte
secret key are exactly the corresponding public key. -/
structure SecretKey where
  bytes : List Nat
deriving DecidableEq

/-- Modelled from the spec: the public-key bytes determined by a secret key
(the trailing 32 bytes of the ed25519 secret key). -/
def pkDerive (sk : SecretKey) : List Nat := sk.bytes.drop 32

/-- Modelled from the spec: a detached signature value of the external scheme;
`s.0` in the source is the raw signature bytes. -/
structure Signature where
  bytes : List Nat
deriving DecidableEq

/-- Modelled from the spec: `sign(secret_key, message) -> signature` of the
external primitive, an idealized correct deterministic scheme: the signature
value determines the signer's public key and the exact signed message. -/
def sign (sk : SecretKey) (msg : List Nat) : Signature :=
  ⟨pkDerive sk ++ msg⟩

/-- Modelled from the spec: `verify(public_key, message, signature)` of the
external primitive: succeeds exactly when the signature was produced over
`msg` by the secret key deriving `pk`. -/
def verify_signature (pk : PublicKey) (msg : List Nat) (s : Signature) : IroncResult Unit :=
  if s.bytes = pk.bytes ++ msg then .ok () else .error ⟨"Invalid signature."⟩

/-- Modelled from the spec: `PublicKey::from_slice`, failing when the byte
length is malformed (a key decode error). -/
def PublicKey.from_slice (b : List Nat) : IroncResult PublicKey :=
  if h : b.length = 32 then .ok ⟨b, h⟩ else .error ⟨"Invalid public key."⟩

/-- Modelled from the spec: `Signature::from_slice` re-wraps stored signature
bytes; in the idealized scheme every byte string embeds as a signature value. -/
def Signature.from_slice (b : List Nat) : IroncResult Signature :=
  .ok ⟨b⟩

/-- Modelled from the spec (section 6 schema): the generated protobuf message
`Transfer(op_index:uint32, tokens:uint64, source_pk:bytes, destination_pk:bytes)`. -/
structure Transfer where
  op_index : Nat
  tokens : Nat
  source_pk : List Nat
  destination_pk : List Nat
deriving DecidableEq

/-- Modelled from the spec (section 6 schema): the generated protobuf message
`Commitment(transfers:repeated Transfer, bounty_pk:bytes, bounty:uint64)`;
`Commitment::new` leaves every field at its default. -/
structure Commitment where
  transfers : List Transfer
  bounty_pk : List Nat
  bounty : Nat
deriving DecidableEq

/-- Modelled from the spec (section 6 schema): the generated protobuf message
`DetachedSignature(public_key:bytes, payload:bytes)`. -/
structure DetachedSignature where
  public_key : List Nat
  payload : List Nat
deriving DecidableEq

/-- Modelled from the spec (section 6 schema): the generated protobuf message
`Transaction(commit:Commitment, signatures:repeated DetachedSignature)`. -/
structure Transaction where
  commit : Commitment
  signatures : List DetachedSignature
deriving DecidableEq

/-- Modelled from the spec: the deterministic canonical encoding of one
transfer, part of the generated `write_to_bytes` (not under src/). -/
def serializeTransfer (t : Transfer) : List Nat :=
  t.op_index :: t.tokens :: t.source_pk.length :: t.source_pk
    ++ t.destination_pk.length :: t.destination_pk

/-- Modelled from the spec: `Commitment::write_to_bytes`, the deterministic
canonical encoding of a commitment.  For the section 6 schema (no required
fields) protobuf serialization always succeeds, so the encoding is total. -/
def serializeCommitment (c : Commitment) : List Nat :=
  c.transfers.length :: (c.transfers.map serializeTransfer).flatten
    ++ c.bounty_pk.length :: c.bounty_pk ++ [c.bounty]

/-- The signature lookup map of `verify_signatures` (src/tx.rs lines 16-19):
every `DetachedSignature` is inserted into a `HashMap` keyed by its
`public_key`, a later insert overwriting an earlier one with the same key.
`signMapGet sigs k` is what the map holds for `k` after all inserts: the
payload of the last signature in `sigs` whose `public_key` equals `k`. -/
def signMapGet : List DetachedSignature → List Nat → Option (List Nat)
  | [], _ => none
  | s :: rest, k =>
      match signMapGet rest k with
      | some p => some p
      | none => if s.public_key = k then some s.payload else none

/-- The body of the verification loop of `verify_signatures` (src/tx.rs lines
20-29) for a single transfer: look up the source key in the signature map,
decode the key and the signature, and verify it against the commitment bytes. -/
def checkTransfer (commit_bytes : List Nat) (sigs : List DetachedSignature)
    (t : Transfer) : IroncResult Unit :=
  match signMapGet sigs t.source_pk with
  | some sign_bytes =>
      match PublicKey.from_slice t.source_pk with
      | .error e => .error e
      | .ok public_key =>
          match Signature.from_slice sign_bytes with
          | .error e => .error e
          | .ok signature => verify_signature public_key commit_bytes signature
  | none => .error ⟨"Missing key."⟩

/-- The verification loop of `verify_signatures`: check every transfer of the
commitment in order, stopping at the first failure. -/
def verifyLoop (commit_bytes : List Nat) (sigs : List DetachedSignature) :
    List Transfer → IroncResult Unit
  | [] => .ok ()
  | t :: rest =>
      match checkTransfer commit_bytes sigs t with
      | .ok _ => verifyLoop commit_bytes sigs rest
      | .error e => .error e

/-- `TransactionExt::verify_signatures` (src/tx.rs lines 14-32): serialize the
commitment (total for this schema, so the source's `try!` never fires), build
the signature map, and check every transfer's source key. -/
def Transaction.verify_signatures (tx : Transaction) : IroncResult Unit :=
  verifyLoop (serializeCommitment tx.commit) tx.signatures tx.commit.transfers

/-- `TransactionBuilder` (src/tx.rs lines 35-40): the secret keys paired with
the pending transfers, the optional bounty secret key, and the commitment. -/
structure TransactionBuilder where
  transfer_secret_keys : List SecretKey
  bounty_secret_key : Option SecretKey
  commit : Commitment

/-- `TransactionBuilder::new` (src/tx.rs lines 43-49). -/
def TransactionBuilder.new : TransactionBuilder :=
  ⟨[], none, ⟨[], [], 0⟩⟩

/-- `TransactionBuilder::add_transfer` (src/tx.rs lines 51-63): the caller
supplies `op_index` and `tokens`; the new transfer and its secret key are
appended to the builder state. -/
def TransactionBuilder.add_transfer (b : TransactionBuilder) (sk : SecretKey)
    (source destination : PublicKey) (tokens : Nat) (op_index : Nat) :
    TransactionBuilder :=
  { b with
    transfer_secret_keys := b.transfer_secret_keys ++ [sk],
    commit := { b.commit with
      transfers := b.commit.transfers
        ++ [⟨op_index, tokens, source.bytes, destination.bytes⟩] } }

/-- `TransactionBuilder::set_bounty` (src/tx.rs lines 65-71): store the bounty
secret key, append the payer's key bytes to `bounty_pk` (the source uses
`push_all`, which appends), and set the bounty amount. -/
def TransactionBuilder.set_bounty (b : TransactionBuilder) (sk : SecretKey)
    (source : PublicKey) (bounty : Nat) : TransactionBuilder :=
  { b with
    bounty_secret_key := some sk,
    commit := { b.commit with
      bounty_pk := b.commit.bounty_pk ++ source.bytes,
      bounty := bounty } }

/-- The signing loop of `build` (src/tx.rs lines 76-91): walk the zip of the
commitment's transfers with the stored transfer secret keys, sign the
commitment bytes with each secret key, re-verify against the transfer's source
key, and collect the detached signatures; the first verification failure is
replaced by the fixed invalid-key error. -/
def buildSigs (commit_bytes : List Nat) :
    List (Transfer × SecretKey) → IroncResult (List DetachedSignature)
  | [] => .ok []
  | (transfer, secret_key) :: rest =>
      let signature := sign secret_key commit_bytes
      match PublicKey.from_slice transfer.source_pk with
      | .error e => .error e
      | .ok pk =>
          match verify_signature pk commit_bytes signature with
          | .ok _ =>
              match buildSigs commit_bytes rest with
              | .ok sigs => .ok (⟨pk.bytes, signature.bytes⟩ :: sigs)
              | .error e => .error e
          | .error _ => .error ⟨"Invalid key for source account."⟩

/-- `TransactionBuilder::build` (src/tx.rs lines 73-95): serialize the
commitment once (the source unwraps `write_to_bytes`, which is total for this
schema), run the signing loop, package commitment and signatures, and run full
`verify_signatures` before returning. -/
def TransactionBuilder.build (b : TransactionBuilder) : IroncResult Transaction :=
  let commit_bytes := serializeCommitment b.commit
  match buildSigs commit_bytes (b.commit.transfers.zip b.transfer_secret_keys) with
  | .error e => .error e
  | .ok sigs =>
      let transaction : Transaction := ⟨b.commit, sigs⟩
      match transaction.verify_signatures with
      | .ok _ => .ok transaction
      | .error e => .error e

/-- Arguments of one `add_transfer` call. -/
structure AddTransferArgs where
  sk : SecretKey
  source : PublicKey
  destination : PublicKey
  tokens : Nat
  op_index : Nat

/-- Arguments of a `set_bounty` call. -/
structure SetBountyArgs where
  sk : SecretKey
  source : PublicKey
  bounty : Nat

/-- The transfer record that `add_transfer` appends for these arguments. -/
def AddTransferArgs.toTransfer (a : AddTransferArgs) : Transfer :=
  ⟨a.op_index, a.tokens, a.source.bytes, a.destination.bytes⟩

/-- The detached signature that a successful `build` emits for these arguments
once the commitment bytes are fixed. -/
def AddTransferArgs.toSig (a : AddTransferArgs) (commit_bytes : List Nat) :
    DetachedSignature :=
  ⟨a.source.bytes, a.source.bytes ++ commit_bytes⟩

/-- A (secret key, source public key) pair is matching when the secret key is
the valid signing key for the public key it is paired with. -/
def AddTransferArgs.valid (a : AddTransferArgs) : Prop :=
  pkDerive a.sk = a.source.bytes

instance (a : AddTransferArgs) : Decidable a.valid := by
  unfold AddTransferArgs.valid; infer_instance

/-- Replay a sequence of `add_transfer` calls on a builder. -/
def applyAdds : TransactionBuilder → List AddTransferArgs → TransactionBuilder
  | b, [] => b
  | b, a :: rest =>
      applyAdds (b.add_transfer a.sk a.source a.destination a.tokens a.op_index) rest

/-- The builder state reached from `new` by a sequence of `add_transfer` calls
followed by an optional `set_bounty` call. -/
def buildFrom (ops : List AddTransferArgs) (bounty : Option SetBountyArgs) :
    TransactionBuilder :=
  match bounty with
  | none => applyAdds TransactionBuilder.new ops
  | some sb => (applyAdds TransactionBuilder.new ops).set_bounty sb.sk sb.source sb.bounty

/-- Run `build` and then `verify_signatures` on the resulting transaction, as
a caller of the engine would. -/
def buildThenVerify (b : TransactionBuilder) : IroncResult Unit :=
  match b.build with
  | .ok t => t.verify_signatures
  | .error e => .error e

/-- Two consecutive runs of `verify_signatures` on the same transaction,
together with the transaction the second run receives. -/
def verifyTwice (tx : Transaction) :
    IroncResult Unit × IroncResult Unit × Transaction :=
  (tx.verify_signatures, tx.verify_signatures, tx)

/-! Helper lemmas about the builder state. -/

theorem applyAdds_commit_transfers (ops : List AddTransferArgs) (b : TransactionBuilder) :
    (applyAdds b ops).commit.transfers
      = b.commit.transfers ++ ops.map AddTransferArgs.toTransfer := by
  induction ops generalizing b with
  | nil => simp [applyAdds]
  | cons a rest ih =>
      simp [applyAdds, TransactionBuilder.add_transfer, ih, AddTransferArgs.toTransfer]

theorem applyAdds_secret_keys (ops : List AddTransferArgs) (b : TransactionBuilder) :
    (applyAdds b ops).transfer_secret_keys
      = b.transfer_secret_keys ++ ops.map AddTransferArgs.sk := by
  induction ops generalizing b with
  | nil => simp [applyAdds]
  | cons a rest ih =>
      simp [applyAdds, TransactionBuilder.add_transfer, ih]

theorem buildFrom_transfers (ops : List AddTransferArgs) (bounty : Option SetBountyArgs) :
    (buildFrom ops bounty).commit.transfers = ops.map AddTransferArgs.toTransfer := by
  cases bounty with
  | none => simp [buildFrom, applyAdds_commit_transfers, TransactionBuilder.new]
  | some sb =>
      simp [buildFrom, TransactionBuilder.set_bounty, applyAdds_commit_transfers,
        TransactionBuilder.new]

theorem buildFrom_secret_keys (ops : List AddTransferArgs) (bounty : Option SetBountyArgs) :
    (buildFrom ops bounty).transfer_secret_keys = ops.map AddTransferArgs.sk := by
  cases bounty with
  | none => simp [buildFrom, applyAdds_secret_keys, TransactionBuilder.new]
  | some sb =>
      simp [buildFrom, TransactionBuilder.set_bounty, applyAdds_secret_keys,
        TransactionBuilder.new]

/-! Helper lemmas about the signature lookup map. -/

theorem signMapGet_isSome_of_mem {sigs : List DetachedSignature} {s : DetachedSignature}
    {k : List Nat} (hmem : s ∈ sigs) (hk : s.public_key = k) :
    (signMapGet sigs k).isSome := by
  induction sigs with
  | nil => cases hmem
  | cons x rest ih =>
      simp only [signMapGet]
      rcases List.mem_cons.mp hmem with h | h
      · subst h
        cases hrest : signMapGet rest k with
        | some p => simp
        | none => simp [hk]
      · have hsome := ih h
        cases hrest : signMapGet rest k with
        | some p => simp
        | none => rw [hrest] at hsome; simp at hsome

theorem signMapGet_some_mem {sigs : List DetachedSignature} {k q : List Nat}
    (h : signMapGet sigs k = some q) :
    ∃ s ∈ sigs, s.public_key = k ∧ s.payload = q := by
  induction sigs with
  | nil => simp [signMapGet] at h
  | cons x rest ih =>
      simp only [signMapGet] at h
      cases hrest : signMapGet rest k with
      | some r =>
          rw [hrest] at h
          injection h with h2
          subst h2
          obtain ⟨s, hs, hk2, hp⟩ := ih hrest
          exact ⟨s, List.mem_cons_of_mem _ hs, hk2, hp⟩
      | none =>
          rw [hrest] at h
          by_cases hxk : x.public_key = k
          · rw [if_pos hxk] at h
            injection h with h2
            exact ⟨x, List.mem_cons_self x rest, hxk, h2⟩
          · rw [if_neg hxk] at h
            cases h

theorem signMapGet_eq_of_all {sigs : List DetachedSignature} {k p : List Nat}
    (hex : ∃ s ∈ sigs, s.public_key = k)
    (hall : ∀ s ∈ sigs, s.public_key = k → s.payload = p) :
    signMapGet sigs k = some p := by
  obtain ⟨s, hs, hk⟩ := hex
  cases h : signMapGet sigs k with
  | none =>
      have hsome := signMapGet_isSome_of_mem hs hk
      rw [h] at hsome
      simp at hsome
  | some q =>
      obtain ⟨u, hu, huk, hup⟩ := signMapGet_some_mem h
      rw [hall u hu huk] at hup
      rw [hup]

theorem signMapGet_append_isSome {l post : List DetachedSignature} {k : List Nat}
    (h : (signMapGet post k).isSome) :
    signMapGet (l ++ post) k = signMapGet post k := by
  obtain ⟨q, hq⟩ := Option.isSome_iff_exists.mp h
  induction l with
  | nil => rfl
  | cons x rest ih =>
      have hstep : signMapGet ((x :: rest) ++ post) k
          = match signMapGet (rest ++ post) k with
            | some p => some p
            | none => if x.public_key = k then some x.payload else none := rfl
      rw [hstep, ih, hq]

theorem signMapGet_append_single_ne {sigs : List DetachedSignature}
    {s : DetachedSignature} {k : List Nat} (h : s.public_key ≠ k) :
    signMapGet (sigs ++ [s]) k = signMapGet sigs k := by
  induction sigs with
  | nil => simp [signMapGet, h]
  | cons x rest ih =>
      have hstep : signMapGet ((x :: rest) ++ [s]) k
          = match signMapGet (rest ++ [s]) k with
            | some p => some p
            | none => if x.public_key = k then some x.payload else none := rfl
      have hstep2 : signMapGet (x :: rest) k
          = match signMapGet rest k with
            | some p => some p
            | none => if x.public_key = k then some x.payload else none := rfl
      rw [hstep, hstep2, ih]

theorem signMapGet_middle_irrel {post : List DetachedSignature} {k p q : List Nat}
    (h : (signMapGet post k).isSome) (pre : List DetachedSignature) (k2 : List Nat) :
    signMapGet (pre ++ ⟨k, p⟩ :: post) k2 = signMapGet (pre ++ ⟨k, q⟩ :: post) k2 := by
  induction pre with
  | nil =>
      simp only [List.nil_append, signMapGet]
      cases hpk : signMapGet post k2 with
      | some r => simp
      | none =>
          by_cases hk : k = k2
          · subst hk
            rw [hpk] at h
            simp at h
          · simp [hk]
  | cons x rest ih =>
      have hstep : ∀ v : List Nat, signMapGet ((x :: rest) ++ ⟨k, v⟩ :: post) k2
          = match signMapGet (rest ++ ⟨k, v⟩ :: post) k2 with
            | some p => some p
            | none => if x.public_key = k2 then some x.payload else none :=
        fun v => rfl
      rw [hstep p, hstep q, ih]

/-! Helper lemmas about the verification loop. -/

theorem checkTransfer_congr {cb : List Nat} {sigs1 sigs2 : List DetachedSignature}
    {t : Transfer} (h : signMapGet sigs1 t.source_pk = signMapGet sigs2 t.source_pk) :
    checkTransfer cb sigs1 t = checkTransfer cb sigs2 t := by
  simp only [checkTransfer, h]

theorem verifyLoop_congr {cb : List Nat} {sigs1 sigs2 : List DetachedSignature}
    {ts : List Transfer}
    (h : ∀ t ∈ ts, signMapGet sigs1 t.source_pk = signMapGet sigs2 t.source_pk) :
    verifyLoop cb sigs1 ts = verifyLoop cb sigs2 ts := by
  induction ts with
  | nil => rfl
  | cons t rest ih =>
      simp only [verifyLoop, checkTransfer_congr (h t (List.mem_cons_self t rest)),
        ih (fun u hu => h u (List.mem_cons_of_mem _ hu))]

theorem verifyLoop_ok_iff {cb : List Nat} {sigs : List DetachedSignature}
    {ts : List Transfer} :
    verifyLoop cb sigs ts = .ok () ↔ ∀ t ∈ ts, checkTransfer cb sigs t = .ok () := by
  induction ts with
  | nil => simp [verifyLoop]
  | cons t rest ih =>
      simp only [verifyLoop]
      cases hc : checkTransfer cb sigs t with
      | ok u =>
          cases u
          constructor
          · intro hl u hu
            rcases List.mem_cons.mp hu with h1 | h1
            · subst h1; exact hc
            · exact ih.mp hl u h1
          · intro hall
            exact ih.mpr (fun u hu => hall u (List.mem_cons_of_mem _ hu))
      | error e =>
          constructor
          · intro hl
            exact absurd (show (Except.error e : IroncResult Unit) = .ok () from hl)
              (by simp)
          · intro hall
            have h2 := hall t (List.mem_cons_self t rest)
            rw [hc] at h2
            cases h2

theorem verifyLoop_append_ok {cb : List Nat} {sigs : List DetachedSignature}
    {pre ts : List Transfer}
    (h : ∀ t ∈ pre, checkTransfer cb sigs t = .ok ()) :
    verifyLoop cb sigs (pre ++ ts) = verifyLoop cb sigs ts := by
  induction pre with
  | nil => rfl
  | cons t rest ih =>
      simp only [List.cons_append, verifyLoop, h t (List.mem_cons_self t rest)]
      exact ih (fun u hu => h u (List.mem_cons_of_mem _ hu))

/-! Helper lemmas about the signing loop of `build`. -/

theorem from_slice_pk (pk : PublicKey) : PublicKey.from_slice pk.bytes = .ok pk := by
  cases pk with
  | mk b h => simp [PublicKey.from_slice, h]

theorem from_slice_ok_bytes {b : List Nat} {pk : PublicKey}
    (h : PublicKey.from_slice b = .ok pk) : pk.bytes = b := by
  unfold PublicKey.from_slice at h
  split at h
  · injection h with h2
    rw [← h2]
  · cases h

theorem buildSigs_valid {cb : List Nat} {ops : List AddTransferArgs}
    (h : ∀ a ∈ ops, a.valid) :
    buildSigs cb (ops.map (fun a => (a.toTransfer, a.sk)))
      = .ok (ops.map (fun a => a.toSig cb)) := by
  induction ops with
  | nil => rfl
  | cons a rest ih =>
      have hv : pkDerive a.sk = a.source.bytes := h a (List.mem_cons_self a rest)
      have hrest := ih (fun u hu => h u (List.mem_cons_of_mem _ hu))
      simp only [AddTransferArgs.toTransfer] at hrest
      simp only [List.map_cons, buildSigs, AddTransferArgs.toTransfer]
      rw [from_slice_pk a.source]
      dsimp only []
      have hvs : verify_signature a.source cb (sign a.sk cb) = .ok () := by
        simp [verify_signature, sign, hv]
      rw [hvs]
      dsimp only []
      rw [hrest]
      dsimp only []
      simp [AddTransferArgs.toSig, sign, hv]

theorem buildSigs_ok_shape {cb : List Nat} {pairs : List (Transfer × SecretKey)}
    {sigs : List DetachedSignature} (h : buildSigs cb pairs = .ok sigs) :
    sigs.map DetachedSignature.public_key = pairs.map (fun p => p.1.source_pk) := by
  induction pairs generalizing sigs with
  | nil =>
      simp only [buildSigs] at h
      injection h with h2
      subst h2
      rfl
  | cons p rest ih =>
      obtain ⟨t, sk⟩ := p
      simp only [buildSigs] at h
      cases hfs : PublicKey.from_slice t.source_pk with
      | error e =>
          rw [hfs] at h
          dsimp only [] at h
          exact Except.noConfusion h
      | ok pk =>
          rw [hfs] at h
          dsimp only [] at h
          cases hv : verify_signature pk cb (sign sk cb) with
          | error e =>
              rw [hv] at h
              dsimp only [] at h
              exact Except.noConfusion h
          | ok u =>
              rw [hv] at h
              dsimp only [] at h
              cases hb : buildSigs cb rest with
              | error e =>
                  rw [hb] at h
                  dsimp only [] at h
                  exact Except.noConfusion h
              | ok sigs2 =>
                  rw [hb] at h
                  dsimp only [] at h
                  injection h with h2
                  subst h2
                  simp [ih hb, from_slice_ok_bytes hfs]

theorem buildSigs_ok_length {cb : List Nat} {pairs : List (Transfer × SecretKey)}
    {sigs : List DetachedSignature} (h : buildSigs cb pairs = .ok sigs) :
    sigs.length = pairs.length := by
  have h2 := congrArg List.length (buildSigs_ok_shape h)
  simpa using h2

theorem buildSigs_append_valid {cb : List Nat} {pre : List AddTransferArgs}
    {l : List (Transfer × SecretKey)} (h : ∀ a ∈ pre, a.valid) :
    buildSigs cb (pre.map (fun a => (a.toTransfer, a.sk)) ++ l)
      = (buildSigs cb l).map (fun s => pre.map (fun a => a.toSig cb) ++ s) := by
  induction pre with
  | nil => cases hb : buildSigs cb l <;> simp [Except.map, hb]
  | cons a rest ih =>
      have hv : pkDerive a.sk = a.source.bytes := h a (List.mem_cons_self a rest)
      have hrest := ih (fun u hu => h u (List.mem_cons_of_mem _ hu))
      simp only [AddTransferArgs.toTransfer] at hrest
      simp only [List.map_cons, List.cons_append, buildSigs, AddTransferArgs.toTransfer]
      rw [from_slice_pk a.source]
      dsimp only []
      have hvs : verify_signature a.source cb (sign a.sk cb) = .ok () := by
        simp [verify_signature, sign, hv]
      rw [hvs]
      dsimp only []
      simp only [List.append_eq]
      rw [hrest]
      cases hb : buildSigs cb l <;>
        simp [Except.map, hb, AddTransferArgs.toSig, sign, hv]

theorem buildSigs_first_invalid {cb : List Nat} {pre : List AddTransferArgs}
    {bad : AddTransferArgs} {rest : List AddTransferArgs}
    (hpre : ∀ a ∈ pre, a.valid) (hbad : ¬ bad.valid) :
    buildSigs cb ((pre ++ bad :: rest).map (fun a => (a.toTransfer, a.sk)))
      = .error ⟨"Invalid key for source account."⟩ := by
  rw [List.map_append, buildSigs_append_valid hpre]
  simp only [List.map_cons, buildSigs, AddTransferArgs.toTransfer]
  rw [from_slice_pk bad.source]
  dsimp only []
  have hvs : verify_signature bad.source cb (sign bad.sk cb)
      = .error ⟨"Invalid signature."⟩ := by
    have hne : (sign bad.sk cb).bytes ≠ bad.source.bytes ++ cb := by
      intro hc
      exact hbad (List.append_cancel_right hc)
    simp [verify_signature, hne]
  rw [hvs]
  dsimp only []
  simp [Except.map]

/-- A definitional restatement of `build` used to drive case analysis. -/
theorem build_eq (b : TransactionBuilder) :
    b.build
      = match buildSigs (serializeCommitment b.commit)
          (b.commit.transfers.zip b.transfer_secret_keys) with
        | .error e => .error e
        | .ok sigs =>
            match (Transaction.mk b.commit sigs).verify_signatures with
            | .ok _ => .ok ⟨b.commit, sigs⟩
            | .error e => .error e := rfl

/-! Verification of the signatures a valid build emits. -/

theorem toSig_payload_of_key {ops : List AddTransferArgs} {cb k : List Nat} :
    ∀ s ∈ ops.map (fun a => a.toSig cb), s.public_key = k → s.payload = k ++ cb := by
  intro s hs hk
  obtain ⟨a, ha, rfl⟩ := List.mem_map.mp hs
  simp only [AddTransferArgs.toSig] at hk ⊢
  rw [hk]

theorem checkTransfer_of_map_entry {cb : List Nat} {sigs : List DetachedSignature}
    {a : AddTransferArgs}
    (hsome : signMapGet sigs a.source.bytes = some (a.source.bytes ++ cb)) :
    checkTransfer cb sigs a.toTransfer = .ok () := by
  simp only [checkTransfer, AddTransferArgs.toTransfer]
  rw [hsome, from_slice_pk a.source]
  dsimp only []
  simp [Signature.from_slice, verify_signature]

theorem verify_built {ops : List AddTransferArgs} {c : Commitment}
    (ht : c.transfers = ops.map AddTransferArgs.toTransfer) :
    Transaction.verify_signatures
      ⟨c, ops.map (fun a => a.toSig (serializeCommitment c))⟩ = .ok () := by
  unfold Transaction.verify_signatures
  apply verifyLoop_ok_iff.mpr
  intro t htmem
  rw [show (Transaction.mk c (ops.map (fun a => a.toSig (serializeCommitment c)))).commit
    = c from rfl] at htmem ⊢
  rw [ht] at htmem
  obtain ⟨a, ha, rfl⟩ := List.mem_map.mp htmem
  apply checkTransfer_of_map_entry
  apply signMapGet_eq_of_all
  · exact ⟨a.toSig (serializeCommitment c), List.mem_map_of_mem _ ha, rfl⟩
  · exact toSig_payload_of_key

/-! Concrete keys and builder arguments used as witnesses. -/

/-- A 32-byte public key of ones. -/
def pkA : PublicKey := ⟨List.replicate 32 1, by simp⟩

/-- A 32-byte public key of twos. -/
def pkB : PublicKey := ⟨List.replicate 32 2, by simp⟩

/-- A 32-byte public key of nines, matching no transfer in the examples. -/
def pkX : PublicKey := ⟨List.replicate 32 9, by simp⟩

/-- The secret key whose trailing 32 bytes derive `pkA`. -/
def skA : SecretKey := ⟨List.replicate 32 0 ++ List.replicate 32 1⟩

/-- The secret key whose trailing 32 bytes derive `pkB`. -/
def skB : SecretKey := ⟨List.replicate 32 0 ++ List.replicate 32 2⟩

/-- A secret key that derives neither `pkA` nor `pkB`. -/
def skBad : SecretKey := ⟨List.replicate 64 7⟩

/-- The fallback transaction used to extract a build result. -/
def defaultTx : Transaction := ⟨⟨[], [], 0⟩, []⟩

/-- Inversion of a successful `build`: the signing loop succeeded, the result
packages the builder's commitment with the emitted signatures, and the final
self-verification succeeded on exactly the returned transaction. -/
theorem build_ok_inv {b : TransactionBuilder} {t : Transaction}
    (h : b.build = .ok t) :
    ∃ sigs, buildSigs (serializeCommitment b.commit)
        (b.commit.transfers.zip b.transfer_secret_keys) = .ok sigs
      ∧ t = ⟨b.commit, sigs⟩ ∧ t.verify_signatures = .ok () := by
  rw [build_eq] at h
  cases hb : buildSigs (serializeCommitment b.commit)
      (b.commit.transfers.zip b.transfer_secret_keys) with
  | error e =>
      rw [hb] at h
      dsimp only [] at h
      exact Except.noConfusion h
  | ok sigs =>
      rw [hb] at h
      dsimp only [] at h
      cases hv : (Transaction.mk b.commit sigs).verify_signatures with
      | error e =>
          rw [hv] at h
          dsimp only [] at h
          exact Except.noConfusion h
      | ok u =>
          rw [hv] at h
          dsimp only [] at h
          injection h with h2
          cases u
          exact ⟨sigs, rfl, h2.symm, h2 ▸ hv⟩

/-! Claim C1. -/

/-- C1 as stated is false; this is the amended claim: a successful `build`
returns one detached signature per added transfer, so a builder holding N
transfers yields exactly N signatures, even when the N source public keys
contain only K < N distinct values — `build` does not deduplicate by key. -/
theorem c1_signature_count_per_transfer (ops : List AddTransferArgs)
    (bounty : Option SetBountyArgs) (t : Transaction)
    (h : (buildFrom ops bounty).build = .ok t) :
    t.signatures.length = ops.length := by
  obtain ⟨sigs, hb, ht, _⟩ := build_ok_inv h
  subst ht
  have hlen := buildSigs_ok_length hb
  rw [List.length_zip, buildFrom_transfers, buildFrom_secret_keys] at hlen
  simpa using hlen

/-- Two transfers sharing the same source key `pkA`, each signed with `skA`. -/
def c1ops : List AddTransferArgs :=
  [⟨skA, pkA, pkB, 5, 0⟩, ⟨skA, pkA, pkB, 7, 1⟩]

/-- C1 counterexample: two transfers whose source keys coincide (one distinct
key) still build successfully with two signatures, not one. -/
theorem c1_counterexample :
    ((buildFrom c1ops none).build).map (fun t => t.signatures.length) = .ok 2
    ∧ ((buildFrom c1ops none).commit.transfers.map Transfer.source_pk).dedup.length
        = 1 := by
  decide

/-- The transaction built from `c1ops`. -/
def c1tx : Transaction := ((buildFrom c1ops none).build).toOption.getD defaultTx

/-- C1 witness: the amended count theorem applied to the concrete build. -/
theorem c1_witness : c1tx.signatures.length = c1ops.length :=
  c1_signature_count_per_transfer c1ops none c1tx (by decide)

/-! Claim C2. -/

/-- C2: whenever `build` returns a transaction, `verify_signatures` on that
returned transaction succeeds — `build` runs full verification last and only
returns the transaction it verified. -/
theorem c2_build_ok_verifies (b : TransactionBuilder) (t : Transaction)
    (h : b.build = .ok t) : t.verify_signatures = .ok () := by
  obtain ⟨sigs, _, _, hok⟩ := build_ok_inv h
  exact hok

/-- A single valid transfer used to exhibit a successful build. -/
def c2ops : List AddTransferArgs := [⟨skA, pkA, pkB, 4, 0⟩]

/-- The transaction built from `c2ops`. -/
def c2tx : Transaction := ((buildFrom c2ops none).build).toOption.getD defaultTx

/-- C2 witness: the theorem applied to a concrete successful build. -/
theorem c2_witness : c2tx.verify_signatures = .ok () :=
  c2_build_ok_verifies (buildFrom c2ops none) c2tx (by decide)

/-! Claim C7. -/

/-- C7 as stated is false; this is the amended claim: the builder stores each
transfer's `op_index` exactly as supplied by the caller of `add_transfer`, in
insertion order — indices are caller-chosen, not assigned sequentially by the
builder. -/
theorem c7_op_index_caller_chosen (ops : List AddTransferArgs)
    (bounty : Option SetBountyArgs) :
    (buildFrom ops bounty).commit.transfers = ops.map AddTransferArgs.toTransfer :=
  buildFrom_transfers ops bounty

/-- C7 counterexample: the first (0th) added transfer carries the
caller-supplied index 7, not the insertion index 0. -/
theorem c7_counterexample :
    (TransactionBuilder.new.add_transfer skA pkA pkB 5 7).commit.transfers.map
        Transfer.op_index = [7]
    ∧ ([7] : List Nat) ≠ [0] := by
  decide

/-! Claim C9. -/

/-- C9: `verify_signatures` is a pure, deterministic predicate — two runs on
the same unmodified transaction return the same verdict and leave the
transaction unchanged (in the embedding the function is pure by construction;
the source takes `&self` and mutates nothing). -/
theorem c9_verify_deterministic_pure (tx : Transaction) :
    (verifyTwice tx).1 = (verifyTwice tx).2.1 ∧ (verifyTwice tx).2.2 = tx :=
  ⟨rfl, rfl⟩

/-! Claim C3. -/

/-- C3: when every transfer is added with a matching (secret key, source
public key) pair, `build` succeeds and `verify_signatures` on the resulting
transaction succeeds as well. -/
theorem c3_valid_pairs_build_and_verify (ops : List AddTransferArgs)
    (bounty : Option SetBountyArgs) (h : ∀ a ∈ ops, a.valid) :
    buildThenVerify (buildFrom ops bounty) = .ok () := by
  have ht := buildFrom_transfers ops bounty
  have hk := buildFrom_secret_keys ops bounty
  have hzip : (buildFrom ops bounty).commit.transfers.zip
        (buildFrom ops bounty).transfer_secret_keys
      = ops.map (fun a => (a.toTransfer, a.sk)) := by
    rw [ht, hk, List.zip_map']
  have hb : buildSigs (serializeCommitment (buildFrom ops bounty).commit)
      ((buildFrom ops bounty).commit.transfers.zip
        (buildFrom ops bounty).transfer_secret_keys)
      = .ok (ops.map (fun a =>
          a.toSig (serializeCommitment (buildFrom ops bounty).commit))) := by
    rw [hzip]
    exact buildSigs_valid h
  have hverify : Transaction.verify_signatures
      ⟨(buildFrom ops bounty).commit, ops.map (fun a =>
        a.toSig (serializeCommitment (buildFrom ops bounty).commit))⟩ = .ok () :=
    verify_built ht
  unfold buildThenVerify
  rw [build_eq, hb]
  dsimp only []
  rw [hverify]
  dsimp only []
  exact hverify

/-- Two transfers with matching key pairs, and a bounty. -/
def c3ops : List AddTransferArgs :=
  [⟨skA, pkA, pkB, 4, 0⟩, ⟨skB, pkB, pkA, 2, 1⟩]

/-- The bounty used in the C3 witness. -/
def c3bounty : SetBountyArgs := ⟨skB, pkB, 3⟩

/-- C3 witness: the theorem applied to concrete matching key pairs. -/
theorem c3_witness : buildThenVerify (buildFrom c3ops (some c3bounty)) = .ok () :=
  c3_valid_pairs_build_and_verify c3ops (some c3bounty) (by decide)

/-! Claim C6. -/

/-- C6 as stated is false; this is the amended claim: `build` signs only with
the transfer secret keys — the signatures of a built transaction carry exactly
the transfer source keys, in order.  The bounty secret key stored by
`set_bounty` is never used, so a bounty payer whose key is not also some
transfer's source key gets no signature. -/
theorem c6_bounty_key_never_signs (ops : List AddTransferArgs)
    (bounty : Option SetBountyArgs) (t : Transaction)
    (h : (buildFrom ops bounty).build = .ok t) :
    t.signatures.map DetachedSignature.public_key
      = ops.map (fun a => a.source.bytes) := by
  obtain ⟨sigs, hb, ht, _⟩ := build_ok_inv h
  subst ht
  have hshape := buildSigs_ok_shape hb
  rw [buildFrom_transfers, buildFrom_secret_keys, List.zip_map'] at hshape
  simp only [List.map_map, Function.comp, AddTransferArgs.toTransfer] at hshape
  simpa using hshape

/-- A single transfer from `pkA`. -/
def c6ops : List AddTransferArgs := [⟨skA, pkA, pkB, 5, 0⟩]

/-- A bounty paid by `pkB`, with `skB` supplied to `set_bounty`. -/
def c6bounty : SetBountyArgs := ⟨skB, pkB, 10⟩

/-- C6 counterexample: the build succeeds, the bounty payer key `pkB` and its
secret key were supplied via `set_bounty`, yet the only signature in the built
transaction is for the transfer source `pkA` — no bounty signature exists. -/
theorem c6_counterexample :
    ((buildFrom c6ops (some c6bounty)).build).map
        (fun t => t.signatures.map DetachedSignature.public_key) = .ok [pkA.bytes]
    ∧ (buildFrom c6ops (some c6bounty)).commit.bounty_pk = pkB.bytes
    ∧ (buildFrom c6ops (some c6bounty)).bounty_secret_key = some skB
    ∧ pkB.bytes ≠ pkA.bytes := by
  decide

/-- The transaction built from `c6ops` with the bounty set. -/
def c6tx : Transaction :=
  ((buildFrom c6ops (some c6bounty)).build).toOption.getD defaultTx

/-- C6 witness: the amended theorem applied to the concrete bounty build. -/
theorem c6_witness : c6tx.signatures.map DetachedSignature.public_key
    = c6ops.map (fun a => a.source.bytes) :=
  c6_bounty_key_never_signs c6ops (some c6bounty) c6tx (by decide)

/-! Claim C8. -/

/-- C8: `build` fails fast on the first invalid (secret key, source public
key) pairing, returning the typed invalid-key error and no transaction; the
only other failure source, commitment serialization, is total for this schema,
so every failure surfaces as a typed result rather than a panic. -/
theorem c8_build_fails_fast (pre : List AddTransferArgs) (bad : AddTransferArgs)
    (rest : List AddTransferArgs) (bounty : Option SetBountyArgs)
    (hpre : ∀ a ∈ pre, a.valid) (hbad : ¬ bad.valid) :
    (buildFrom (pre ++ bad :: rest) bounty).build
      = .error ⟨"Invalid key for source account."⟩ := by
  rw [build_eq]
  have hzip : (buildFrom (pre ++ bad :: rest) bounty).commit.transfers.zip
        (buildFrom (pre ++ bad :: rest) bounty).transfer_secret_keys
      = (pre ++ bad :: rest).map (fun a => (a.toTransfer, a.sk)) := by
    rw [buildFrom_transfers, buildFrom_secret_keys, List.zip_map']
  rw [hzip, buildSigs_first_invalid hpre hbad]

/-- A valid pairing preceding the invalid one. -/
def c8good : AddTransferArgs := ⟨skA, pkA, pkB, 5, 0⟩

/-- An invalid pairing: `skBad` does not derive `pkA`. -/
def c8bad : AddTransferArgs := ⟨skBad, pkA, pkB, 6, 1⟩

/-- A further transfer after the invalid pairing. -/
def c8after : AddTransferArgs := ⟨skB, pkB, pkA, 7, 2⟩

/-- C8 witness: the theorem applied to a concrete builder whose second
transfer carries a mismatched secret key. -/
theorem c8_witness : (buildFrom ([c8good] ++ c8bad :: [c8after]) none).build
    = .error ⟨"Invalid key for source account."⟩ :=
  c8_build_fails_fast [c8good] c8bad [c8after] none (by decide) (by decide)

/-! Claim C4. -/

/-- C4 as stated is false (the error does not name the account); this is the
amended claim: verification never succeeds when some transfer's source key has
no entry in the signature map — the loop iterates all transfers, duplicates
included — and when every transfer before the first entry-less one checks out,
the result is exactly the fixed error value built from "Missing key.", which
carries no account identifier. -/
theorem c4_missing_entry_rejected :
    (∀ tx : Transaction,
        (∃ t ∈ tx.commit.transfers, signMapGet tx.signatures t.source_pk = none) →
        tx.verify_signatures ≠ .ok ())
    ∧ (∀ (c : Commitment) (sigs : List DetachedSignature) (pre : List Transfer)
        (t : Transfer) (rest : List Transfer),
        c.transfers = pre ++ t :: rest →
        (∀ u ∈ pre, checkTransfer (serializeCommitment c) sigs u = .ok ()) →
        signMapGet sigs t.source_pk = none →
        Transaction.verify_signatures ⟨c, sigs⟩ = .error ⟨"Missing key."⟩) := by
  constructor
  · rintro tx ⟨t, htm, hnone⟩ hok
    unfold Transaction.verify_signatures at hok
    have hct := verifyLoop_ok_iff.mp hok t htm
    rw [checkTransfer, hnone] at hct
    exact Except.noConfusion hct
  · intro c sigs pre t rest hsplit hpre hnone
    show verifyLoop (serializeCommitment c) sigs c.transfers = .error ⟨"Missing key."⟩
    rw [hsplit, verifyLoop_append_ok hpre]
    have hct : checkTransfer (serializeCommitment c) sigs t
        = .error ⟨"Missing key."⟩ := by
      rw [checkTransfer, hnone]
    simp only [verifyLoop]
    rw [hct]

/-- A transfer whose source is `pkA`. -/
def trA : Transfer := ⟨0, 5, pkA.bytes, pkB.bytes⟩

/-- A transfer whose source is `pkB`. -/
def trB : Transfer := ⟨0, 5, pkB.bytes, pkA.bytes⟩

/-- C4 counterexample: transactions missing signatures for two different
accounts produce the identical error value "Missing key." — the error cannot
be naming the account. -/
theorem c4_counterexample :
    Transaction.verify_signatures ⟨⟨[trA], [], 0⟩, []⟩ = .error ⟨"Missing key."⟩
    ∧ Transaction.verify_signatures ⟨⟨[trB], [], 0⟩, []⟩ = .error ⟨"Missing key."⟩
    ∧ trA.source_pk ≠ trB.source_pk := by
  decide

/-- The transaction missing the signature for `trA`. -/
def c4tx : Transaction := ⟨⟨[trA], [], 0⟩, []⟩

/-- C4 witness: both conjuncts of the amended theorem applied to the concrete
signature-less transaction. -/
theorem c4_witness :
    Transaction.verify_signatures c4tx ≠ .ok ()
    ∧ Transaction.verify_signatures ⟨⟨[trA], [], 0⟩, []⟩
        = .error ⟨"Missing key."⟩ :=
  ⟨c4_missing_entry_rejected.1 c4tx (by decide),
   c4_missing_entry_rejected.2 ⟨[trA], [], 0⟩ [] [] trA [] (by decide) (by decide)
     (by decide)⟩

/-! Claim C5. -/

/-- C5 as stated is false; this is the amended claim: `verify_signatures` does
not check the binding invariant — a detached signature whose `public_key`
matches no transfer's `source_pk` is simply never consulted, so appending such
a signature (bound to the bounty payer or to nothing at all) never changes the
verdict, and a transaction carrying an unbound signature can still pass
verification. -/
theorem c5_unbound_signature_ignored (c : Commitment)
    (sigs : List DetachedSignature) (s : DetachedSignature)
    (h : ∀ t ∈ c.transfers, t.source_pk ≠ s.public_key) :
    Transaction.verify_signatures ⟨c, sigs ++ [s]⟩
      = Transaction.verify_signatures ⟨c, sigs⟩ := by
  unfold Transaction.verify_signatures
  exact verifyLoop_congr
    (fun t ht => signMapGet_append_single_ne (Ne.symm (h t ht)))

/-- A one-transfer commitment whose bounty payer is `pkB`. -/
def c5commit : Commitment := ⟨[⟨0, 5, pkA.bytes, pkB.bytes⟩], pkB.bytes, 2⟩

/-- The valid signature for the single transfer source `pkA`. -/
def c5sig : DetachedSignature := ⟨pkA.bytes, pkA.bytes ++ serializeCommitment c5commit⟩

/-- A signature bound to `pkX`, which is no transfer source and not the
bounty payer. -/
def c5extra : DetachedSignature := ⟨pkX.bytes, [0, 1, 2]⟩

/-- C5 counterexample: a transaction carrying a signature bound to no transfer
source and not to the bounty payer still passes verification. -/
theorem c5_counterexample :
    Transaction.verify_signatures ⟨c5commit, [c5sig, c5extra]⟩ = .ok ()
    ∧ [c5sig, c5extra].map DetachedSignature.public_key = [pkA.bytes, pkX.bytes]
    ∧ c5commit.transfers.map Transfer.source_pk = [pkA.bytes]
    ∧ pkX.bytes ≠ pkA.bytes
    ∧ pkX.bytes ≠ c5commit.bounty_pk := by
  decide

/-- C5 witness: appending the unbound signature leaves the verdict unchanged
on the concrete transaction. -/
theorem c5_witness :
    Transaction.verify_signatures ⟨c5commit, [c5sig] ++ [c5extra]⟩
      = Transaction.verify_signatures ⟨c5commit, [c5sig]⟩ :=
  c5_unbound_signature_ignored c5commit [c5sig] c5extra (by decide)

/-! Claim C10. -/

/-- C10: when the signature list holds several entries for the same
`public_key`, the lookup map keeps only the last such entry, so the verdict is
unchanged under any replacement of an earlier duplicate's payload, and the
payload consulted for that key is the one found among the later entries. -/
theorem c10_last_duplicate_wins (c : Commitment)
    (pre post : List DetachedSignature) (k p q : List Nat)
    (h : ∃ s ∈ post, s.public_key = k) :
    Transaction.verify_signatures ⟨c, pre ++ ⟨k, p⟩ :: post⟩
        = Transaction.verify_signatures ⟨c, pre ++ ⟨k, q⟩ :: post⟩
    ∧ signMapGet (pre ++ ⟨k, p⟩ :: post) k = signMapGet post k := by
  obtain ⟨s, hs, hk⟩ := h
  have hsome : (signMapGet post k).isSome := signMapGet_isSome_of_mem hs hk
  constructor
  · unfold Transaction.verify_signatures
    exact verifyLoop_congr (fun t _ => signMapGet_middle_irrel hsome pre t.source_pk)
  · have hassoc : pre ++ (⟨k, p⟩ : DetachedSignature) :: post
        = (pre ++ [⟨k, p⟩]) ++ post := by simp
    rw [hassoc, signMapGet_append_isSome hsome]

/-- A one-transfer commitment used for the duplicate-signature witness. -/
def c10commit : Commitment := ⟨[⟨0, 5, pkA.bytes, pkB.bytes⟩], [], 0⟩

/-- The valid signature for the transfer source of `c10commit`. -/
def c10sig : DetachedSignature := ⟨pkA.bytes, pkA.bytes ++ serializeCommitment c10commit⟩

/-- C10 witness: the theorem applied to a concrete duplicate pair — the
garbage payloads of the earlier duplicates are irrelevant and the lookup
resolves to the later entry. -/
theorem c10_witness :
    (Transaction.verify_signatures
        ⟨c10commit, [] ++ (⟨pkA.bytes, [9]⟩ : DetachedSignature) :: [c10sig]⟩
      = Transaction.verify_signatures
        ⟨c10commit, [] ++ (⟨pkA.bytes, [8]⟩ : DetachedSignature) :: [c10sig]⟩)
    ∧ signMapGet ([] ++ (⟨pkA.bytes, [9]⟩ : DetachedSignature) :: [c10sig]) pkA.bytes
        = signMapGet [c10sig] pkA.bytes :=
  c10_last_duplicate_wins c10commit [] [c10sig] pkA.bytes [9] [8] (by decide)
